import Mathlib

/-!
Shallow embedding of the expression-language front end (lexer, parser,
visitor-based evaluator) of the repository, together with theorems
settling the specification claims.

Conventions of the embedding:
* Rust `f64` values are modelled as exact rationals (`ℚ`); all numeric
  literals appearing in the claims are exactly representable.
* Source text is a `List Char` and positions are Unicode-scalar indices,
  matching the lexer's `current_pos` character indexing (the spec blesses
  scalar-index position tracking).
* Rust `Option`-returning parser methods that can also `panic!` are
  modelled with an explicit result type distinguishing normal results,
  `None` propagation and panics; mutual recursion is made total with a
  fuel parameter (fuel only bounds call depth).
* `print!` side effects are modelled as an `output` trace carried in the
  evaluator state.
-/

namespace N56

/-- Token kinds, from `lexer.rs` (`TokenKind`).  `For` and `End` are Lean
keywords, so they are rendered `forKw` and `endKw`; `Variable` is the Lean
`variable` command keyword, rendered `var`. -/
inductive TokenKind where
  | real : ℚ → TokenKind
  | var : String → TokenKind
  | to : TokenKind
  | assing : TokenKind
  | define : TokenKind
  | forKw : TokenKind
  | term : TokenKind
  | begin : TokenKind
  | endKw : TokenKind
  | print : TokenKind
  | pow : TokenKind
  | plus : TokenKind
  | minus : TokenKind
  | asterisk : TokenKind
  | slash : TokenKind
  | integerDivide : TokenKind
  | leftParen : TokenKind
  | rightParen : TokenKind
  | bad : TokenKind
  | whitespace : TokenKind
  | eof : TokenKind
  deriving DecidableEq, Repr

/-- Source span, from `lexer.rs` (`TextSpan`).  The Rust field `end` is a
Lean keyword and is rendered `endPos`; the literal is kept as a character
list. -/
structure TextSpan where
  start : Nat
  endPos : Nat
  literal : List Char
  deriving DecidableEq, Repr

/-- `TextSpan::length`. -/
def TextSpan.length (s : TextSpan) : Nat := s.endPos - s.start

/-- A token, from `lexer.rs` (`Token`). -/
structure Token where
  kind : TokenKind
  span : TextSpan
  deriving DecidableEq, Repr

/-- `Lexer::is_number_start`. -/
def isNumberStart (c : Char) : Bool := c.isDigit

/-- `Lexer::is_whitespace`. -/
def isWhitespaceChar (c : Char) : Bool := c.isWhitespace

/-- The character class consumed by `Lexer::consume_number`: a digit or a
decimal point (the loop in the source consumes both without limiting the
number of dots). -/
def isNumberChar (c : Char) : Bool := c.isDigit || c = '.'

/-- Numeric value of a digit string, most significant first. -/
def digitsVal (l : List Char) : Nat :=
  l.foldl (fun a c => 10 * a + (c.toNat - 48)) 0

/-- Modelled from the Rust standard library: `str::parse::<f64>` restricted
to the digit/dot strings produced by `consume_number`, with the parsed
value taken exactly (as a rational).  A string with no dot is a plain
natural number; one dot splits integer and fractional part (either side
may be empty, but not both); two or more dots fail to parse, and the
caller's `unwrap_or(0.0)` turns the failure into `0`. -/
def parseF64 (l : List Char) : Option ℚ :=
  if l.count '.' = 0 then
    if l ≠ [] then some ((digitsVal l : ℚ)) else none
  else if l.count '.' = 1 then
    let ip := l.takeWhile (fun c => c ≠ '.')
    let fp := (l.dropWhile (fun c => c ≠ '.')).drop 1
    if ip.length + fp.length ≠ 0 then
      some ((digitsVal ip : ℚ) + (digitsVal fp : ℚ) / (10 ^ fp.length : ℚ))
    else none
  else none

/-- The string `consume_number` hands to the float parser: the consumed
run, with `".0"` appended when the `is_whole_number` flag survived (no
dot was consumed) and the run is nonempty. -/
def numberStrOf (taken : List Char) : List Char :=
  if ¬ taken.contains '.' ∧ taken ≠ [] then taken ++ ['.', '0'] else taken

/-- `Lexer::consume_number`: consume a maximal run of digits and dots
starting at `pos` (the `while let` loop, i.e. `takeWhile` on the
remaining input); parse the resulting string, degrading to `0.0` on
failure (`unwrap_or(0.0)`).  Returns the value and the new position. -/
def consumeNumber (input : List Char) (pos : Nat) : ℚ × Nat :=
  ((parseF64 (numberStrOf ((input.drop pos).takeWhile isNumberChar))).getD 0,
    pos + ((input.drop pos).takeWhile isNumberChar).length)

/-- `Lexer::consume_punctuation`: consume one character (two for `//`) and
classify it.  The source `unwrap`s the consumed character; the call sites
guarantee `pos < input.length`, so the `none` branch here is unreachable
(it is given the innocuous value `(bad, pos + 1)`). -/
def consumePunctuation (input : List Char) (pos : Nat) : TokenKind × Nat :=
  match input.get? pos with
  | none => (TokenKind.bad, pos + 1)
  | some c =>
    match c with
    | '+' => (TokenKind.plus, pos + 1)
    | '-' => (TokenKind.minus, pos + 1)
    | '*' => (TokenKind.asterisk, pos + 1)
    | '=' => (TokenKind.assing, pos + 1)
    | ';' => (TokenKind.term, pos + 1)
    | '/' =>
      match input.get? (pos + 1) with
      | some '/' => (TokenKind.integerDivide, pos + 2)
      | _ => (TokenKind.slash, pos + 1)
    | '(' => (TokenKind.leftParen, pos + 1)
    | ')' => (TokenKind.rightParen, pos + 1)
    | '{' => (TokenKind.begin, pos + 1)
    | '}' => (TokenKind.endKw, pos + 1)
    | '^' => (TokenKind.pow, pos + 1)
    | _ => (TokenKind.bad, pos + 1)

/-- The keyword check at the end of the identifier branch of
`Lexer::next_token`: `"for"`, `"print"` and `"var"` are keywords, anything
else is a variable name. -/
def keywordOrVariable (name : String) : TokenKind :=
  if name = "for" then TokenKind.forKw
  else if name = "print" then TokenKind.print
  else if name = "var" then TokenKind.define
  else TokenKind.var name

/-- The synthetic end-of-input token emitted by `Lexer::next_token`:
degenerate span `(0, 0)` and a null-character placeholder literal. -/
def eofToken : Token :=
  { kind := TokenKind.eof, span := { start := 0, endPos := 0, literal := ['\x00'] } }

/-- The branch classification inside `Lexer::next_token` for a real
character `c` at `pos`: the if/else chain of the source (digit,
whitespace, alphabetic with the keyword check, punctuation), yielding the
token kind and the advanced `current_pos`. -/
def classify (input : List Char) (pos : Nat) (c : Char) : TokenKind × Nat :=
  if isNumberStart c then
    (TokenKind.real (consumeNumber input pos).1, (consumeNumber input pos).2)
  else if isWhitespaceChar c then
    (TokenKind.whitespace, pos + 1)
  else if c.isAlpha then
    (keywordOrVariable (String.mk ((input.drop pos).takeWhile Char.isAlphanum)),
      pos + ((input.drop pos).takeWhile Char.isAlphanum).length)
  else
    consumePunctuation input pos

/-- `Lexer::next_token`.  The state is the current position; `none` means
the lexer produces no further token (the `c.map` on a `None` current
character).  At `pos = input.length` exactly one end-of-input token is
emitted and the position moves past the end, after which every call
returns `none`.  For a real character the token's kind and end come from
`classify`, and the token's literal is the source slice
`input[start..end]`. -/
def nextToken (input : List Char) (pos : Nat) : Option (Token × Nat) :=
  if pos = input.length then
    some (eofToken, pos + 1)
  else
    match input.get? pos with
    | none => none
    | some c =>
      some ({ kind := (classify input pos c).1,
              span := { start := pos, endPos := (classify input pos c).2,
                        literal := (input.drop pos).take ((classify input pos c).2 - pos) } },
            (classify input pos c).2)

/-- The token-collection loop of `main`: call `next_token` until it
returns `None`, pushing every token.  Fuel only bounds the number of
iterations; `tokenize` supplies enough for the loop to reach the `None`. -/
def tokenizeAux (input : List Char) : Nat → Nat → List Token
  | 0, _ => []
  | fuel + 1, pos =>
    match nextToken input pos with
    | none => []
    | some (t, p) => t :: tokenizeAux input fuel p

/-- Lex a whole source text: the emitted token sequence, whitespace and
the final end-of-input token included. -/
def tokenize (input : List Char) : List Token :=
  tokenizeAux input (input.length + 2) 0

/-- Binary operator kinds, from `mod.rs` (`ASTBinaryOperatorKind`); the
`Eof` variant (never produced by the parser) is rendered `eofOp`. -/
inductive ASTBinaryOperatorKind where
  | plus : ASTBinaryOperatorKind
  | minus : ASTBinaryOperatorKind
  | multiply : ASTBinaryOperatorKind
  | divide : ASTBinaryOperatorKind
  | pow : ASTBinaryOperatorKind
  | integerDivide : ASTBinaryOperatorKind
  | eofOp : ASTBinaryOperatorKind
  deriving DecidableEq, Repr

/-- `ASTBinaryOperator`: an operator kind together with the token it came
from. -/
structure ASTBinaryOperator where
  kind : ASTBinaryOperatorKind
  token : Token
  deriving DecidableEq, Repr

/-- `ASTBinaryOperator::precedence` (a `u8` in the source; the values are
1–3, far from overflow, so `Nat` is faithful). -/
def ASTBinaryOperator.precedence (op : ASTBinaryOperator) : Nat :=
  match op.kind with
  | ASTBinaryOperatorKind.eofOp => 1
  | ASTBinaryOperatorKind.plus => 1
  | ASTBinaryOperatorKind.minus => 1
  | ASTBinaryOperatorKind.multiply => 2
  | ASTBinaryOperatorKind.divide => 2
  | ASTBinaryOperatorKind.integerDivide => 2
  | ASTBinaryOperatorKind.pow => 3

/-- Expression nodes, from `mod.rs` (`ASTExpressionKind` and the payload
structs, flattened: the payloads are single-field wrappers). -/
inductive ASTExpression where
  | number : ℚ → ASTExpression
  | var : String → ASTExpression
  | binary : ASTBinaryOperator → ASTExpression → ASTExpression → ASTExpression
  | parenthesized : ASTExpression → ASTExpression
  | startEnd : ASTExpression → ASTExpression
  deriving DecidableEq, Repr

/-- Statements, from `mod.rs` (`ASTStatementKind`): only expression
statements exist. -/
inductive ASTStatement where
  | expression : ASTExpression → ASTStatement
  deriving DecidableEq, Repr

/-- Result of a parser method.  `ok` and `stop` carry the parser's
`current` index afterwards; `stop` is Rust's `None` propagated by `?`;
`panic` is a `panic!`, aborting the whole run; `outOfFuel` marks fuel
exhaustion in the embedding (never reached with the fuel supplied by the
driver). -/
inductive PRes (α : Type) where
  | ok : α → Nat → PRes α
  | stop : Nat → PRes α
  | panic : PRes α
  | outOfFuel : PRes α
  deriving DecidableEq, Repr

/-- `Parser::parse_binary_operator`: peek the current token (without
consuming) and map it to an operator if it is one. -/
def parseBinaryOperator (tokens : List Token) (pos : Nat) : Option ASTBinaryOperator :=
  match tokens.get? pos with
  | none => none
  | some token =>
    let kind : Option ASTBinaryOperatorKind :=
      match token.kind with
      | TokenKind.plus => some ASTBinaryOperatorKind.plus
      | TokenKind.minus => some ASTBinaryOperatorKind.minus
      | TokenKind.asterisk => some ASTBinaryOperatorKind.multiply
      | TokenKind.slash => some ASTBinaryOperatorKind.divide
      | TokenKind.pow => some ASTBinaryOperatorKind.pow
      | TokenKind.integerDivide => some ASTBinaryOperatorKind.integerDivide
      | _ => none
    kind.map (fun k => { kind := k, token := token })

mutual

/-- `Parser::parse_primary_expression`: `self.consume()?` one token and
dispatch on its kind.  In the `(` and `{` cases the inner expression is
parsed, then one token is consumed and compared with the closer; a
mismatch is `panic!("Expected right paren")`.  Any other token kind gives
Rust's `None` (with `current` already advanced by the consume). -/
def parsePrimaryExpression : Nat → List Token → Nat → PRes ASTExpression
  | 0, _, _ => PRes.outOfFuel
  | fuel + 1, tokens, pos =>
    match tokens.get? pos with
    | none => PRes.stop (pos + 1)
    | some token =>
      match token.kind with
      | TokenKind.real n => PRes.ok (ASTExpression.number n) (pos + 1)
      | TokenKind.var name => PRes.ok (ASTExpression.var name) (pos + 1)
      | TokenKind.leftParen =>
        match parseExpression fuel tokens (pos + 1) with
        | PRes.ok expr p =>
          (match tokens.get? p with
          | none => PRes.stop (p + 1)
          | some t2 =>
            if t2.kind = TokenKind.rightParen then
              PRes.ok (ASTExpression.parenthesized expr) (p + 1)
            else PRes.panic)
        | PRes.stop p => PRes.stop p
        | PRes.panic => PRes.panic
        | PRes.outOfFuel => PRes.outOfFuel
      | TokenKind.begin =>
        match parseExpression fuel tokens (pos + 1) with
        | PRes.ok expr p =>
          (match tokens.get? p with
          | none => PRes.stop (p + 1)
          | some t2 =>
            if t2.kind = TokenKind.endKw then
              PRes.ok (ASTExpression.startEnd expr) (p + 1)
            else PRes.panic)
        | PRes.stop p => PRes.stop p
        | PRes.panic => PRes.panic
        | PRes.outOfFuel => PRes.outOfFuel
      | _ => PRes.stop (pos + 1)
termination_by structural f t p => f

/-- The `while let` loop of `Parser::parse_binary_expression`, with the
running `left` operand.  Note the order faithfully kept from the source:
the operator is consumed (`self.consume()`) BEFORE the precedence test,
so a `break` on low precedence leaves `current` past the operator. -/
def parseBinaryLoop : Nat → List Token → Nat → ASTExpression → Nat → PRes ASTExpression
  | 0, _, _, _, _ => PRes.outOfFuel
  | fuel + 1, tokens, precedence, left, pos =>
    match parseBinaryOperator tokens pos with
    | none => PRes.ok left pos
    | some operator =>
      let p1 := pos + 1
      if operator.precedence < precedence then PRes.ok left p1
      else
        match parseBinaryExpression fuel tokens p1 operator.precedence with
        | PRes.ok right p2 =>
          parseBinaryLoop fuel tokens precedence (ASTExpression.binary operator left right) p2
        | PRes.stop p => PRes.stop p
        | PRes.panic => PRes.panic
        | PRes.outOfFuel => PRes.outOfFuel
termination_by structural f t q l p => f

/-- `Parser::parse_binary_expression(precedence)`: one primary expression
as the initial left operand, then the operator loop. -/
def parseBinaryExpression : Nat → List Token → Nat → Nat → PRes ASTExpression
  | 0, _, _, _ => PRes.outOfFuel
  | fuel + 1, tokens, pos, precedence =>
    match parsePrimaryExpression fuel tokens pos with
    | PRes.ok left p => parseBinaryLoop fuel tokens precedence left p
    | PRes.stop p => PRes.stop p
    | PRes.panic => PRes.panic
    | PRes.outOfFuel => PRes.outOfFuel
termination_by structural f t p q => f

/-- `Parser::parse_expression`: defer to `parse_binary_expression(0)`. -/
def parseExpression : Nat → List Token → Nat → PRes ASTExpression
  | 0, _, _ => PRes.outOfFuel
  | fuel + 1, tokens, pos => parseBinaryExpression fuel tokens pos 0
termination_by structural f t p => f

end

/-- `Parser::parse_statement` (= `next_statement`): peek the current
token (`self.current()?`, no consume), then parse one expression and wrap
it. -/
def parseStatement : Nat → List Token → Nat → PRes ASTStatement
  | 0, _, _ => PRes.outOfFuel
  | fuel + 1, tokens, pos =>
    match tokens.get? pos with
    | none => PRes.stop pos
    | some _ =>
      match parseExpression fuel tokens pos with
      | PRes.ok expr p => PRes.ok (ASTStatement.expression expr) p
      | PRes.stop p => PRes.stop p
      | PRes.panic => PRes.panic
      | PRes.outOfFuel => PRes.outOfFuel

/-- The statement-collection loop of `main`: call `next_statement` until
it returns `None`, pushing every statement; a `panic!` aborts the whole
run. -/
def parseAll : Nat → List Token → Nat → PRes (List ASTStatement)
  | 0, _, _ => PRes.outOfFuel
  | fuel + 1, tokens, pos =>
    match parseStatement fuel tokens pos with
    | PRes.ok st p =>
      (match parseAll fuel tokens p with
      | PRes.ok sts p2 => PRes.ok (st :: sts) p2
      | PRes.stop p2 => PRes.stop p2
      | PRes.panic => PRes.panic
      | PRes.outOfFuel => PRes.outOfFuel)
    | PRes.stop p => PRes.ok [] p
    | PRes.panic => PRes.panic
    | PRes.outOfFuel => PRes.outOfFuel

/-- `Parser::new`: filter out whitespace tokens before parsing. -/
def parserNew (tokens : List Token) : List Token :=
  tokens.filter (fun token => decide (token.kind ≠ TokenKind.whitespace))

/-- Rust's saturating-truncating cast `f64 as u32` used in the `Pow`
evaluation (`(right as u32)`): truncate toward zero, negatives saturate
to `0`, values ≥ 2^32 saturate to `u32::MAX = 2^32 - 1`. -/
def f64AsU32 (r : ℚ) : Nat :=
  if r < 0 then 0 else min (⌊r⌋.toNat) (2 ^ 32 - 1)

/-- The operator match in `ASTEvaluator::visit_binary_expression`: `+ - *`
standard; `/` and `//` both plain division; `^` is
`left.powf((right as u32).into())`, i.e. the left operand raised to the
cast exponent; the unreachable `Eof` arm yields `0.0`. -/
def applyBinaryOperator (kind : ASTBinaryOperatorKind) (left right : ℚ) : ℚ :=
  match kind with
  | ASTBinaryOperatorKind.plus => left + right
  | ASTBinaryOperatorKind.minus => left - right
  | ASTBinaryOperatorKind.multiply => left * right
  | ASTBinaryOperatorKind.divide => left / right
  | ASTBinaryOperatorKind.pow => left ^ f64AsU32 right
  | ASTBinaryOperatorKind.integerDivide => left / right
  | ASTBinaryOperatorKind.eofOp => 0

/-- Evaluator state, from `mod.rs` (`ASTEvaluator`): the `last_value`
register and the variable map (`variables` in the source, an association
list here renamed `vars` since `variables` is reserved in Lean), plus an
`output` trace modelling what `print!` writes to standard output. -/
structure EvalState where
  last_value : Option ℚ
  vars : List (String × ℚ)
  output : List ℚ
  deriving DecidableEq, Repr

/-- `ASTEvaluator::new()` (output trace initially empty). -/
def evalInit : EvalState :=
  { last_value := none, vars := [], output := [] }

/-- `self.variables.get(&variable.name).cloned()`. -/
def lookupVar (vars : List (String × ℚ)) (name : String) : Option ℚ :=
  (vars.find? (fun p => decide (p.1 = name))).map (fun p => p.2)

/-- `ASTEvaluator::visit_expression` (with the binary case of
`visit_binary_expression` inlined at the `Binary` arm, as the source's
dispatch does).  Result `none` models a `panic!`/`unwrap` abort.  The
`Variable` arm hard-codes `x ↦ 1.0` and `y ↦ 3.0` before `visit_variable`
consults the map; the binary arm unwraps `last_value` after each operand
(aborting on "no value") and prints the left operand's value. -/
def visitExpression : ASTExpression → EvalState → Option EvalState
  | ASTExpression.number n, s => some { s with last_value := some n }
  | ASTExpression.binary op a b, s =>
    match visitExpression a s with
    | none => none
    | some s1 =>
      match s1.last_value with
      | none => none
      | some left =>
        let s1p := { s1 with output := s1.output ++ [left] }
        match visitExpression b s1p with
        | none => none
        | some s2 =>
          match s2.last_value with
          | none => none
          | some right =>
            some { s2 with last_value := some (applyBinaryOperator op.kind left right) }
  | ASTExpression.parenthesized e, s => visitExpression e s
  | ASTExpression.startEnd e, s => visitExpression e s
  | ASTExpression.var name, s =>
    if name = "x" then some { s with last_value := some 1 }
    else if name = "y" then some { s with last_value := some 3 }
    else some { s with last_value := lookupVar s.vars name }

/-- `ASTEvaluator::visit_statement` via the default dispatcher. -/
def visitStatement : ASTStatement → EvalState → Option EvalState
  | ASTStatement.expression e, s => visitExpression e s

/-- `Ast::evaluate`: visit every statement in order with a fresh
evaluator; `none` models an aborting `panic!`. -/
def evaluateProgram (statements : List ASTStatement) : Option EvalState :=
  statements.foldlM (fun s st => visitStatement st s) evalInit

/-- Ample fuel for a token list: the parser's call depth is bounded by a
small multiple of the token count. -/
def parseFuel (tokens : List Token) : Nat :=
  4 * tokens.length + 8

/-- The parsing half of `main`: lex, filter whitespace, collect
statements. -/
def runParser (source : List Char) : PRes (List ASTStatement) :=
  let tokens := parserNew (tokenize source)
  parseAll (parseFuel tokens) tokens 0

/-- The whole pipeline of `main` on a source string: `none` when parsing
or evaluation panics, otherwise `some` of the final `last_value` register
(`Ast::evaluate`'s result: `some (some v)` prints `Result: v`,
`some none` prints `No result`). -/
def interpret (source : String) : Option (Option ℚ) :=
  match runParser source.data with
  | PRes.ok statements _ => (evaluateProgram statements).map (fun s => s.last_value)
  | _ => none

/-- The operator-kind shape of an expression: the tree with the operator
kinds but without the tokens carried inside `ASTBinaryOperator`, for
stating parse-tree-shape facts compactly. -/
inductive ExprShape where
  | num : ℚ → ExprShape
  | varS : String → ExprShape
  | bin : ASTBinaryOperatorKind → ExprShape → ExprShape → ExprShape
  | paren : ExprShape → ExprShape
  | block : ExprShape → ExprShape
  deriving DecidableEq, Repr

/-- Erase operator tokens from an expression tree. -/
def shapeOf : ASTExpression → ExprShape
  | ASTExpression.number n => ExprShape.num n
  | ASTExpression.var s => ExprShape.varS s
  | ASTExpression.binary op a b => ExprShape.bin op.kind (shapeOf a) (shapeOf b)
  | ASTExpression.parenthesized e => ExprShape.paren (shapeOf e)
  | ASTExpression.startEnd e => ExprShape.block (shapeOf e)

/-- The shapes of the statements the parser produces for a source text
(`none` when parsing panics). -/
def parseShapes (source : String) : Option (List ExprShape) :=
  match runParser source.data with
  | PRes.ok sts _ =>
    some (sts.map (fun st => match st with | ASTStatement.expression e => shapeOf e))
  | _ => none

/-- The exponent described by the spec for `^`: the right operand
"truncated to a non-negative integer exponent" — negative operands give
`0`, otherwise the integer part, with no upper bound.  Stated from the
spec's words, to compare with the code's `f64AsU32` cast. -/
def specTruncNonNeg (r : ℚ) : Nat :=
  if r < 0 then 0 else (⌊r⌋).toNat

section ClaimTheorems

attribute [local semireducible] Rat.add Rat.mul Rat.sub Rat.inv Rat.ofScientific

set_option maxHeartbeats 2000000

/-- Claim C1: lexing, parsing and evaluating `"2 + 3 * 4"` yields 14.0 and
`"(2 + 3) * 4"` yields 20.0; the precedence table gives additive
operators 1, multiplicative 2 and power 3 (higher binds tighter, as the
two end-to-end results exhibit). -/
theorem c1_precedence_end_to_end :
    interpret "2 + 3 * 4" = some (some 14) ∧
    interpret "(2 + 3) * 4" = some (some 20) ∧
    (∀ t : Token, ASTBinaryOperator.precedence ⟨ASTBinaryOperatorKind.plus, t⟩ = 1) ∧
    (∀ t : Token, ASTBinaryOperator.precedence ⟨ASTBinaryOperatorKind.minus, t⟩ = 1) ∧
    (∀ t : Token, ASTBinaryOperator.precedence ⟨ASTBinaryOperatorKind.multiply, t⟩ = 2) ∧
    (∀ t : Token, ASTBinaryOperator.precedence ⟨ASTBinaryOperatorKind.divide, t⟩ = 2) ∧
    (∀ t : Token, ASTBinaryOperator.precedence ⟨ASTBinaryOperatorKind.integerDivide, t⟩ = 2) ∧
    (∀ t : Token, ASTBinaryOperator.precedence ⟨ASTBinaryOperatorKind.pow, t⟩ = 3) :=
  ⟨by decide, by decide, fun _ => rfl, fun _ => rfl, fun _ => rfl, fun _ => rfl,
    fun _ => rfl, fun _ => rfl⟩

/-- Claim C2 (code bug, witnessed): in `parse_binary_expression` the
operator is consumed by `self.consume()` BEFORE the precedence test, so a
lower-precedence operator does NOT remain the current token for the
enclosing call.  On the token sequence of `"2 * 3 + 4"`, the inner
`parse_binary_expression(2)` call (starting at the filtered-token index 2
of `3`, with the `+` at index 3) returns with the parser position already
at 4 — past the `+` — so the enclosing call never sees the `+`, the source
parses as the two statements `2 * 3` and `4`, and the whole pipeline
evaluates to 4.0 instead of 10.0. -/
theorem c2_operator_consumed_before_precedence_check :
    parseBinaryExpression 99 (parserNew (tokenize "2 * 3 + 4".data)) 2 2 =
      PRes.ok (ASTExpression.number 3) 4 ∧
    (parserNew (tokenize "2 * 3 + 4".data)).get? 3 =
      some { kind := TokenKind.plus, span := { start := 6, endPos := 7, literal := ['+'] } } ∧
    parseShapes "2 * 3 + 4" =
      some [ExprShape.bin ASTBinaryOperatorKind.multiply (ExprShape.num 2) (ExprShape.num 3),
            ExprShape.num 4] ∧
    interpret "2 * 3 + 4" = some (some 4) :=
  ⟨by decide, by decide, by decide, by decide⟩

/-- Claim C3: equal-precedence chains associate to the right: `"2 - 3 - 4"`
parses as `2 - (3 - 4)`, and `"8 - 3 - 2"` evaluates to 7.0, not 3.0. -/
theorem c3_right_associativity :
    parseShapes "2 - 3 - 4" =
      some [ExprShape.bin ASTBinaryOperatorKind.minus (ExprShape.num 2)
              (ExprShape.bin ASTBinaryOperatorKind.minus (ExprShape.num 3) (ExprShape.num 4))] ∧
    interpret "8 - 3 - 2" = some (some 7) ∧
    interpret "8 - 3 - 2" ≠ some (some 3) :=
  ⟨by decide, by decide, by decide⟩

/-- Claim C4 counterexample: lexing `"1.2.3"` produces a SINGLE numeric
token covering the whole five-character input (value degraded to 0.0),
followed only by the end-of-input token — the second `.` does not
terminate the number early and no trailing characters are left for
subsequent tokens. -/
theorem c4_counterexample_second_dot_not_early_termination :
    tokenize "1.2.3".data =
      [{ kind := TokenKind.real 0, span := { start := 0, endPos := 5, literal := "1.2.3".data } },
       eofToken] ∧
    (tokenize "1.2.3".data).length = 2 := by
  exact ⟨by decide, by decide⟩

/-- Claim C4 as amended: numeric-literal lexing consumes a maximal run of
digits AND decimal points (a second `.` is consumed into the same numeric
token rather than terminating it), and numeric text that fails to parse
as a floating-point value — e.g. two or more dots — degrades to the value
0.0 instead of failing. -/
theorem c4_number_lexing_amended :
    (∀ (input : List Char) (pos : Nat),
      (consumeNumber input pos).2 = pos + ((input.drop pos).takeWhile isNumberChar).length) ∧
    (∀ (input : List Char) (pos : Nat),
      2 ≤ ((input.drop pos).takeWhile isNumberChar).count '.' →
      (consumeNumber input pos).1 = 0) ∧
    tokenize "1.2.3".data =
      [{ kind := TokenKind.real 0, span := { start := 0, endPos := 5, literal := "1.2.3".data } },
       eofToken] := by
  refine ⟨fun input pos => rfl, fun input pos h => ?_, by decide⟩
  have hmem : '.' ∈ (input.drop pos).takeWhile isNumberChar :=
    List.count_pos_iff.1 (by omega)
  have hstr : numberStrOf ((input.drop pos).takeWhile isNumberChar) =
      (input.drop pos).takeWhile isNumberChar := by
    simp [numberStrOf, hmem]
  show (parseF64 (numberStrOf ((input.drop pos).takeWhile isNumberChar))).getD 0 = 0
  rw [hstr]
  have hc0 : ¬ ((input.drop pos).takeWhile isNumberChar).count '.' = 0 := by omega
  have hc1 : ¬ ((input.drop pos).takeWhile isNumberChar).count '.' = 1 := by omega
  simp [parseF64, hc0, hc1]

/-- Witness for C4 (amended) at a concrete input: the numeric text
`"1.2.3"` (two dots) degrades to the value 0.0. -/
theorem c4_number_lexing_witness :
    (consumeNumber "1.2.3".data 0).1 = 0 :=
  c4_number_lexing_amended.2.1 "1.2.3".data 0 (by decide)

/-- Claim C8: `"//"` lexes as a single two-character integer-divide token
and a lone `"/"` as ordinary divide; the integer-divide operator
evaluates identically to `/` — both are plain division with no
truncation (`"5 // 2"` and `"5 / 2"` both give 2.5). -/
theorem c8_integer_divide_is_ordinary_divide :
    tokenize "//".data =
      [{ kind := TokenKind.integerDivide, span := { start := 0, endPos := 2, literal := ['/', '/'] } },
       eofToken] ∧
    tokenize "/".data =
      [{ kind := TokenKind.slash, span := { start := 0, endPos := 1, literal := ['/'] } },
       eofToken] ∧
    (∀ l r : ℚ, applyBinaryOperator ASTBinaryOperatorKind.integerDivide l r =
        applyBinaryOperator ASTBinaryOperatorKind.divide l r) ∧
    (∀ l r : ℚ, applyBinaryOperator ASTBinaryOperatorKind.integerDivide l r = l / r) ∧
    interpret "5 // 2" = some (some (5 / 2)) ∧
    interpret "5 / 2" = some (some (5 / 2)) :=
  ⟨by decide, by decide, fun _ _ => rfl, fun _ _ => rfl, by decide, by decide⟩

/-- Claim C6: a reference to a variable other than the reserved `"x"` and
`"y"`, with no binding in the variable map, sets the result register to
"no value" (not zero); and a "no value" where a binary operand is
required — left or right — aborts evaluation entirely (the `unwrap`
panics) rather than producing a diagnosed error. -/
theorem c6_unbound_variable_is_no_value_and_fatal :
    (∀ (name : String) (s : EvalState), name ≠ "x" → name ≠ "y" →
      lookupVar s.vars name = none →
      visitExpression (ASTExpression.var name) s = some { s with last_value := none }) ∧
    (∀ (op : ASTBinaryOperator) (a b : ASTExpression) (s s1 : EvalState),
      visitExpression a s = some s1 → s1.last_value = none →
      visitExpression (ASTExpression.binary op a b) s = none) ∧
    (∀ (op : ASTBinaryOperator) (a b : ASTExpression) (s s1 s2 : EvalState) (left : ℚ),
      visitExpression a s = some s1 → s1.last_value = some left →
      visitExpression b { s1 with output := s1.output ++ [left] } = some s2 →
      s2.last_value = none →
      visitExpression (ASTExpression.binary op a b) s = none) := by
  refine ⟨?_, ?_, ?_⟩
  · intro name s hx hy hl
    simp [visitExpression, hx, hy, hl]
  · intro op a b s s1 h1 h2
    simp [visitExpression, h1, h2]
  · intro op a b s s1 s2 left h1 h2 h3 h4
    rw [h2] at h3
    simp [visitExpression, h1, h2, h3, h4]

/-- Witness for C6 at a concrete input: the unbound variable `z` in the
initial (empty-map) state yields the "no value" register, and `z + 1`
aborts evaluation. -/
theorem c6_unbound_variable_witness :
    visitExpression (ASTExpression.var "z") evalInit = some { evalInit with last_value := none } ∧
    visitExpression
      (ASTExpression.binary
        ⟨ASTBinaryOperatorKind.plus, { kind := TokenKind.plus, span := ⟨0, 1, ['+']⟩ }⟩
        (ASTExpression.var "z") (ASTExpression.number 1)) evalInit = none :=
  ⟨c6_unbound_variable_is_no_value_and_fatal.1 "z" evalInit (by decide) (by decide) (by decide),
   c6_unbound_variable_is_no_value_and_fatal.2.1 _ _ _ _ _
     (c6_unbound_variable_is_no_value_and_fatal.1 "z" evalInit (by decide) (by decide) (by decide))
     rfl⟩

/-- Evaluation only ever appends to the output trace. -/
theorem visitExpression_output_monotone :
    ∀ (e : ASTExpression) (s s2 : EvalState),
      visitExpression e s = some s2 → ∃ r, s2.output = s.output ++ r := by
  intro e
  induction e with
  | number n =>
    intro s s2 h
    simp only [visitExpression, Option.some.injEq] at h
    exact ⟨[], by simp [← h]⟩
  | var name =>
    intro s s2 h
    simp only [visitExpression] at h
    split at h <;> [skip; split at h] <;>
      · simp only [Option.some.injEq] at h
        exact ⟨[], by simp [← h]⟩
  | parenthesized e ih =>
    intro s s2 h
    exact ih s s2 h
  | startEnd e ih =>
    intro s s2 h
    exact ih s s2 h
  | binary op a b iha ihb =>
    intro s s2 h
    simp only [visitExpression] at h
    split at h
    · exact absurd h (by simp)
    · rename_i s1 hva
      split at h
      · exact absurd h (by simp)
      · rename_i left hl
        split at h
        · exact absurd h (by simp)
        · rename_i s3 hvb
          split at h
          · exact absurd h (by simp)
          · rename_i right hr
            simp only [Option.some.injEq] at h
            obtain ⟨r1, hr1⟩ := iha s s1 hva
            obtain ⟨r2, hr2⟩ := ihb _ s3 hvb
            refine ⟨r1 ++ [left] ++ r2, ?_⟩
            rw [← h]
            simp only [hr2, hr1]
            simp

/-- Claim C10: evaluating any binary expression node writes the left
operand's computed value to the output as a side effect (the
`print!("{}", left)` in `visit_binary_expression`): whenever such a node
evaluates successfully, the final output extends the output at entry to
the left operand's evaluation by that value (followed by whatever the
right-hand side printed). -/
theorem c10_binary_prints_left_operand :
    ∀ (op : ASTBinaryOperator) (a b : ASTExpression) (s s2 : EvalState),
      visitExpression (ASTExpression.binary op a b) s = some s2 →
      ∃ (s1 : EvalState) (left : ℚ) (rest : List ℚ),
        visitExpression a s = some s1 ∧ s1.last_value = some left ∧
        s2.output = (s1.output ++ [left]) ++ rest := by
  intro op a b s s2 h
  simp only [visitExpression] at h
  split at h
  · exact absurd h (by simp)
  · rename_i s1 hva
    split at h
    · exact absurd h (by simp)
    · rename_i left hl
      split at h
      · exact absurd h (by simp)
      · rename_i s3 hvb
        split at h
        · exact absurd h (by simp)
        · rename_i right hr
          simp only [Option.some.injEq] at h
          obtain ⟨r2, hr2⟩ := visitExpression_output_monotone b _ s3 hvb
          refine ⟨s1, left, r2, hva, hl, ?_⟩
          rw [← h]
          simpa using hr2

/-- Witness for C10 at a concrete input: evaluating `2 + 3` from the
initial state prints the left operand 2 (the final output is `[2]`), in
addition to producing the result 5 in the register. -/
theorem c10_binary_prints_left_operand_witness :
    (∃ (s1 : EvalState) (left : ℚ) (rest : List ℚ),
      visitExpression (ASTExpression.number 2) evalInit = some s1 ∧ s1.last_value = some left ∧
      ({ last_value := some 5, vars := [], output := [2] } : EvalState).output =
        (s1.output ++ [left]) ++ rest) :=
  c10_binary_prints_left_operand
    ⟨ASTBinaryOperatorKind.plus, { kind := TokenKind.plus, span := ⟨0, 1, ['+']⟩ }⟩
    (ASTExpression.number 2) (ASTExpression.number 3) evalInit
    { last_value := some 5, vars := [], output := [2] } (by decide)

/-- Claim C9: for every token sequence in which `(` (or `{`) opens a group
whose inner expression parses successfully but the next token is not the
matching `)` (or `}`), `parse_primary_expression` panics — and the panic
terminates the whole parse (shown at process level on the concrete
sources `"(2"` and `"{ 2 + 3"`, whose groups are closed only by the
end-of-input token). -/
theorem c9_unmatched_grouping_panics :
    (∀ (fuel : Nat) (tokens : List Token) (pos p : Nat) (tk t2 : Token) (e : ASTExpression),
      tokens.get? pos = some tk → tk.kind = TokenKind.leftParen →
      parseExpression fuel tokens (pos + 1) = PRes.ok e p →
      tokens.get? p = some t2 → t2.kind ≠ TokenKind.rightParen →
      parsePrimaryExpression (fuel + 1) tokens pos = PRes.panic) ∧
    (∀ (fuel : Nat) (tokens : List Token) (pos p : Nat) (tk t2 : Token) (e : ASTExpression),
      tokens.get? pos = some tk → tk.kind = TokenKind.begin →
      parseExpression fuel tokens (pos + 1) = PRes.ok e p →
      tokens.get? p = some t2 → t2.kind ≠ TokenKind.endKw →
      parsePrimaryExpression (fuel + 1) tokens pos = PRes.panic) ∧
    runParser "(2".data = PRes.panic ∧
    runParser "\x7b 2 + 3".data = PRes.panic := by
  refine ⟨?_, ?_, by decide, by decide⟩
  · intro fuel tokens pos p tk t2 e h1 h2 h3 h4 h5
    obtain ⟨k, sp⟩ := tk
    simp only [Token.kind] at h2
    subst h2
    simp only [parsePrimaryExpression, h1, h3, h4, if_neg h5]
  · intro fuel tokens pos p tk t2 e h1 h2 h3 h4 h5
    obtain ⟨k, sp⟩ := tk
    simp only [Token.kind] at h2
    subst h2
    simp only [parsePrimaryExpression, h1, h3, h4, if_neg h5]

/-- Witness for C9 at a concrete input: in the whitespace-filtered token
sequence of `"(2"`, the group opened at index 0 has an inner expression
that parses (the literal 2), but the token after it is the end-of-input
token, not `)` — and `parse_primary_expression` panics. -/
theorem c9_unmatched_grouping_witness :
    parsePrimaryExpression 11 (parserNew (tokenize "(2".data)) 0 = PRes.panic :=
  c9_unmatched_grouping_panics.1 10 (parserNew (tokenize "(2".data)) 0 2
    { kind := TokenKind.leftParen, span := { start := 0, endPos := 1, literal := ['('] } }
    eofToken (ASTExpression.number 2)
    (by decide) (by decide) (by decide) (by decide) (by decide)

/-- Claim C7 counterexample: the claim's universally quantified clause
("for every left operand a and every right operand b, `a ^ b` equals a
raised to the non-negative integer truncation of b") fails at a = 2,
b = 2^32: the cast `b as u32` saturates at `u32::MAX = 2^32 - 1`, so the
code computes `2 ^ (2^32 - 1)` while the truncation of b is `2^32`
itself. -/
theorem c7_counterexample_saturating_cast :
    ¬ applyBinaryOperator ASTBinaryOperatorKind.pow 2 (4294967296 : ℚ) =
        (2 : ℚ) ^ specTruncNonNeg (4294967296 : ℚ) := by
  have h1 : f64AsU32 (4294967296 : ℚ) = 4294967295 := by decide
  have h2 : specTruncNonNeg (4294967296 : ℚ) = 4294967296 := by decide
  simp only [applyBinaryOperator, h1, h2]
  intro heq
  have hlt : (2 : ℚ) ^ (4294967295 : ℕ) < (2 : ℚ) ^ (4294967296 : ℕ) :=
    pow_lt_pow_right₀ (by norm_num) (by norm_num)
  exact absurd heq (ne_of_lt hlt)

/-- Claim C7 as amended: `"2 ^ 3"` and `"2 ^ 3.9"` both evaluate to 8.0,
and for every left operand and every right operand BELOW 2^32 the power
operator equals the left operand raised to the non-negative integer
truncation of the right operand (beyond 2^32 the `as u32` cast saturates
at `u32::MAX`, as the counterexample shows). -/
theorem c7_pow_truncation_amended :
    interpret "2 ^ 3" = some (some 8) ∧
    interpret "2 ^ 3.9" = some (some 8) ∧
    ∀ a b : ℚ, b < 4294967296 →
      applyBinaryOperator ASTBinaryOperatorKind.pow a b = a ^ specTruncNonNeg b := by
  refine ⟨by decide, by decide, ?_⟩
  intro a b hb
  simp only [applyBinaryOperator, f64AsU32, specTruncNonNeg]
  by_cases hneg : b < 0
  · simp [hneg]
  · have hfloor : ⌊b⌋ < (4294967296 : ℤ) := Int.floor_lt.2 (by exact_mod_cast hb)
    have htn : (⌊b⌋).toNat ≤ 4294967295 := by omega
    simp only [hneg, if_false]
    congr 1
    simpa using Nat.min_eq_left htn

/-- Witness for C7 (amended) at a concrete input: b = 3.9 is below 2^32,
and `2 ^ 3.9` computes 2 raised to the truncation 3 of 3.9, i.e. 8. -/
theorem c7_pow_truncation_witness :
    applyBinaryOperator ASTBinaryOperatorKind.pow 2 ((39 : ℚ) / 10) =
      2 ^ specTruncNonNeg ((39 : ℚ) / 10) :=
  c7_pow_truncation_amended.2.2 2 ((39 : ℚ) / 10) (by decide)

/-- Helper: the element at `pos` heads the dropped suffix. -/
theorem drop_eq_cons_of_get (input : List Char) (pos : Nat) (c : Char)
    (h : input.get? pos = some c) : input.drop pos = c :: input.drop (pos + 1) := by
  obtain ⟨hlt, hv⟩ := List.getElem?_eq_some_iff.1 (by simpa using h)
  subst hv
  exact List.drop_eq_getElem_cons hlt

/-- Helper: `consume_punctuation` advances by one position (two for `//`),
stays within the input, and never yields the end-of-input kind. -/
theorem consumePunctuation_spec (input : List Char) (pos : Nat) (h : pos < input.length) :
    pos < (consumePunctuation input pos).2 ∧ (consumePunctuation input pos).2 ≤ input.length ∧
      (consumePunctuation input pos).1 ≠ TokenKind.eof := by
  unfold consumePunctuation
  split
  · exact ⟨Nat.lt_succ_self pos, by omega, by simp⟩
  · split <;>
      first
        | exact ⟨Nat.lt_succ_self pos, by omega, by simp⟩
        | (split
           · rename_i hq
             have hb : pos + 1 < input.length := by
               by_contra hh
               rw [List.get?_eq_none.2 (by omega)] at hq
               exact absurd hq (by simp)
             exact ⟨by omega, by omega, by simp⟩
           · exact ⟨Nat.lt_succ_self pos, by omega, by simp⟩)

/-- Helper: when the character at `pos` is a digit, `consume_number`
advances at least one position and stays within the input. -/
theorem consumeNumber_spec (input : List Char) (pos : Nat) (c : Char)
    (hc : input.get? pos = some c) (hd : isNumberStart c = true) (h : pos < input.length) :
    pos < (consumeNumber input pos).2 ∧ (consumeNumber input pos).2 ≤ input.length := by
  have hdrop := drop_eq_cons_of_get input pos c hc
  have hnum : isNumberChar c = true := by
    simp only [isNumberStart] at hd
    simp [isNumberChar, hd]
  have hlen1 : 1 ≤ ((input.drop pos).takeWhile isNumberChar).length := by
    rw [hdrop, List.takeWhile_cons_of_pos hnum]
    simp
  have hlen2 : ((input.drop pos).takeWhile isNumberChar).length ≤ (input.drop pos).length :=
    (List.takeWhile_sublist isNumberChar).length_le
  rw [List.length_drop] at hlen2
  have hsnd : (consumeNumber input pos).2 =
      pos + ((input.drop pos).takeWhile isNumberChar).length := rfl
  rw [hsnd]
  exact ⟨by omega, by omega⟩

/-- Helper: the keyword check never produces the end-of-input kind. -/
theorem keywordOrVariable_ne_eof (s : String) : keywordOrVariable s ≠ TokenKind.eof := by
  unfold keywordOrVariable
  split
  · simp
  · split
    · simp
    · split <;> simp

/-- Helper: for a real character, the classification advances, stays in
bounds, and never produces the end-of-input kind. -/
theorem classify_spec (input : List Char) (pos : Nat) (c : Char)
    (hc : input.get? pos = some c) (h : pos < input.length) :
    pos < (classify input pos c).2 ∧ (classify input pos c).2 ≤ input.length ∧
      (classify input pos c).1 ≠ TokenKind.eof := by
  unfold classify
  by_cases h1 : isNumberStart c = true
  · obtain ⟨ha, hb⟩ := consumeNumber_spec input pos c hc h1 h
    rw [if_pos h1]
    exact ⟨ha, hb, by simp⟩
  · rw [if_neg h1]
    by_cases h2 : isWhitespaceChar c = true
    · rw [if_pos h2]
      exact ⟨Nat.lt_succ_self pos, by omega, by simp⟩
    · rw [if_neg h2]
      by_cases h3 : c.isAlpha = true
      · rw [if_pos h3]
        have hdrop := drop_eq_cons_of_get input pos c hc
        have han : c.isAlphanum = true := by
          simp [Char.isAlphanum, h3]
        have hlen1 : 1 ≤ ((input.drop pos).takeWhile Char.isAlphanum).length := by
          rw [hdrop, List.takeWhile_cons_of_pos han]
          simp
        have hlen2 : ((input.drop pos).takeWhile Char.isAlphanum).length ≤
            (input.drop pos).length :=
          (List.takeWhile_sublist Char.isAlphanum).length_le
        rw [List.length_drop] at hlen2
        exact ⟨by omega, by omega, keywordOrVariable_ne_eof _⟩
      · rw [if_neg h3]
        exact consumePunctuation_spec input pos h

/-- Helper: at a position strictly inside the input, `next_token` emits a
non-end-of-input token whose span starts at the position, ends strictly
further (still within the input), and whose literal is the corresponding
source slice. -/
theorem nextToken_spec (input : List Char) (pos : Nat) (h : pos < input.length) :
    ∃ t p2, nextToken input pos = some (t, p2) ∧ pos < p2 ∧ p2 ≤ input.length ∧
      t.kind ≠ TokenKind.eof ∧ t.span.start = pos ∧ t.span.endPos = p2 ∧
      t.span.literal = (input.drop pos).take (p2 - pos) := by
  have hne : pos ≠ input.length := Nat.ne_of_lt h
  cases hc : input.get? pos with
  | none =>
    rw [List.get?_eq_none] at hc
    omega
  | some c =>
    obtain ⟨ha, hb, hk⟩ := classify_spec input pos c hc h
    have heq : nextToken input pos =
        some ({ kind := (classify input pos c).1,
                span := { start := pos, endPos := (classify input pos c).2,
                          literal := (input.drop pos).take ((classify input pos c).2 - pos) } },
              (classify input pos c).2) := by
      unfold nextToken
      rw [if_neg hne, hc]
    exact ⟨_, _, heq, ha, hb, hk, rfl, rfl, rfl⟩

/-- Helper: past the end of the input (once the end-of-input token has
been emitted) the lexer yields nothing, so the collection loop stops. -/
theorem tokenizeAux_past_end (input : List Char) (fuel p : Nat) (h : input.length < p) :
    tokenizeAux input fuel p = [] := by
  cases fuel with
  | zero => rfl
  | succ f =>
    have hne : p ≠ input.length := by omega
    have hnone : input[p]? = none := List.getElem?_eq_none (by omega)
    simp [tokenizeAux, nextToken, hne, hnone]

/-- Helper: from any in-bounds position, with ample fuel, the collected
tokens tile the remaining input: every non-end-of-input token's literal
is its span's source slice, and the literals concatenate (end-of-input
placeholder excluded) to exactly the remaining source. -/
theorem tokenizeAux_tiles (input : List Char) :
    ∀ fuel pos, pos ≤ input.length → input.length + 2 - pos ≤ fuel →
      ((((tokenizeAux input fuel pos).filter
          (fun t => decide (t.kind ≠ TokenKind.eof))).map (fun t => t.span.literal)).flatten =
        input.drop pos) ∧
      (∀ t ∈ tokenizeAux input fuel pos, t.kind ≠ TokenKind.eof →
        t.span.literal = (input.drop t.span.start).take (t.span.endPos - t.span.start)) := by
  intro fuel
  induction fuel with
  | zero =>
    intro pos h1 h2
    omega
  | succ f ih =>
    intro pos h1 h2
    by_cases hpos : pos = input.length
    · subst hpos
      have hstep : tokenizeAux input (f + 1) input.length =
          eofToken :: tokenizeAux input f (input.length + 1) := by
        simp [tokenizeAux, nextToken]
      rw [hstep, tokenizeAux_past_end input f (input.length + 1) (by omega)]
      constructor
      · simp [eofToken, List.drop_length]
      · intro t ht hkind
        simp only [List.mem_singleton] at ht
        subst ht
        exact absurd rfl hkind
    · have hlt : pos < input.length := by omega
      obtain ⟨t, p2, heq, hadv, hle, hkind, hstart, hend, hlit⟩ := nextToken_spec input pos hlt
      have hstep : tokenizeAux input (f + 1) pos = t :: tokenizeAux input f p2 := by
        conv_lhs => rw [tokenizeAux]
        rw [heq]
      obtain ⟨ihjoin, ihmem⟩ := ih p2 hle (by omega)
      rw [hstep]
      constructor
      · have hkeep : decide (t.kind ≠ TokenKind.eof) = true := by simp [hkind]
        simp only [List.filter_cons, hkeep, if_true, List.map_cons, List.flatten_cons]
        rw [ihjoin, hlit]
        have hdd : input.drop p2 = (input.drop pos).drop (p2 - pos) := by
          rw [List.drop_drop]
          congr 1
          omega
        rw [hdd, List.take_append_drop]
      · intro u hu hukind
        rcases List.mem_cons.1 hu with hcase | hcase
        · subst hcase
          rw [hstart, hend]
          exact hlit
        · exact ihmem u hcase hukind

/-- Claim C5: lexing round-trip — for every source text, every emitted
non-end-of-input token's span literal equals the source slice
`[start..end]`, and concatenating the emitted tokens' literal substrings
in emission order (whitespace tokens included, before any filtering;
the synthetic end-of-input token, whose placeholder literal is not a
source substring, has none to contribute) reproduces the source text
exactly. -/
theorem c5_lexing_round_trip (input : List Char) :
    (∀ t ∈ tokenize input, t.kind ≠ TokenKind.eof →
      t.span.literal = (input.drop t.span.start).take (t.span.endPos - t.span.start)) ∧
    ((((tokenize input).filter (fun t => decide (t.kind ≠ TokenKind.eof))).map
        (fun t => t.span.literal)).flatten = input) := by
  obtain ⟨hjoin, hmem⟩ := tokenizeAux_tiles input (input.length + 2) 0 (by omega) (by omega)
  exact ⟨hmem, by simpa using hjoin⟩

/-- Witness for C5 at a concrete input: the first token of `"2 + 3"` has
literal equal to the slice `[0..1]` of the source, and the literals of
all tokens other than the end-of-input one concatenate back to the
source text. -/
theorem c5_lexing_round_trip_witness :
    (({ kind := TokenKind.real 2,
        span := { start := 0, endPos := 1, literal := ['2'] } } : Token).span.literal =
      ("2 + 3".data.drop 0).take (1 - 0)) ∧
    ((((tokenize "2 + 3".data).filter (fun t => decide (t.kind ≠ TokenKind.eof))).map
        (fun t => t.span.literal)).flatten = "2 + 3".data) :=
  ⟨(c5_lexing_round_trip "2 + 3".data).1
      { kind := TokenKind.real 2, span := { start := 0, endPos := 1, literal := ['2'] } }
      (by decide) (by decide),
    (c5_lexing_round_trip "2 + 3".data).2⟩

end ClaimTheorems

end N56
